import Mathlib

/-
Verification of the aerich migration generator (`aerich/migrate.py` and
`aerich/ddl/sqlite/__init__.py`).

The Python code is shallowly embedded: the class-level mutable accumulators of
`Migrate` become an explicit `MigrateState` record threaded through the diff
functions; tortoise `Field`/`Model` metadata becomes plain records; Python
dicts become association lists (first-match lookup, unique keys in practice);
exceptions become `Except`.  The interactive rename prompt
(`ask_rename_column`) and the dialect DDL renderer (`BaseDDL`, whose module is
not part of this repository snapshot) are parameters of the diff functions.
-/

namespace Aerich

/-- Role tag of a tortoise field: plain column, `ForeignKeyFieldInstance`,
`ManyToManyFieldInstance`, or a backward relation
(`BackwardFKRelation`/`BackwardOneToOneRelation`). -/
inductive FieldRole where
  | plain
  | foreignKey
  | manyToMany
  | backwardRelation
deriving DecidableEq

/-- Normalized field descriptor: the attributes of a tortoise field that
`Migrate.diff_model` reads (`describe(serializable=True)` content plus
`model_field_name`, `index`, `unique`, `null`, `default`, `description`,
and for m2m fields the `through` join-table name). -/
structure Field where
  name : String
  db_column : String
  field_type : String
  null : Bool
  unique : Bool
  index : Bool
  default : Option String
  description : Option String
  role : FieldRole
  through : String
deriving DecidableEq

/-- Content of `field.describe(serializable=True)` after popping the keys
`"unique"` and `"indexed"` (the structural comparison of
`Migrate.diff_model`, lines 275-280). -/
structure FieldStructural where
  name : String
  db_column : String
  field_type : String
  null : Bool
  default : Option String
  description : Option String
  role : FieldRole
  through : String
deriving DecidableEq

/-- Content of `field.describe(serializable=True)` after popping the keys
`"name"` and `"db_column"` (the rename-candidate comparison of
`Migrate.diff_model`, lines 319-327). -/
structure FieldRenameDescribe where
  field_type : String
  null : Bool
  unique : Bool
  index : Bool
  default : Option String
  description : Option String
  role : FieldRole
  through : String
deriving DecidableEq

def Field.structuralDescribe (f : Field) : FieldStructural :=
  ⟨f.name, f.db_column, f.field_type, f.null, f.default, f.description, f.role, f.through⟩

def Field.renameDescribe (f : Field) : FieldRenameDescribe :=
  ⟨f.field_type, f.null, f.unique, f.index, f.default, f.description, f.role, f.through⟩

/-- Model metadata read by the differ: `_meta.fields_map` (insertion-ordered
dict as an association list), `_meta.indexes`, `_meta.unique_together`,
`_meta.fk_fields`, and the table name used by DDL rendering. -/
structure Model where
  table : String
  fields_map : List (String × Field)
  indexes : List (List String)
  unique_together : List (List String)
  fk_fields : List String
deriving DecidableEq

/-- Python `dict.get`: first entry with the given key. -/
def lookupA {α : Type} : List (String × α) → String → Option α
  | [], _ => none
  | (k, v) :: rest, key => if k == key then some v else lookupA rest key

/-- Python `dict.pop(key, None)` / `dict.pop(key)`: drop the entry with the
given key (the first one; dict keys are unique). -/
def popKey {α : Type} : List (String × α) → String → List (String × α)
  | [], _ => []
  | (k, v) :: rest, key => if k == key then rest else (k, v) :: popKey rest key

/-- Python `d[key] = value`: overwrite in place, or append a new entry. -/
def setKey {α : Type} : List (String × α) → String → α → List (String × α)
  | [], key, value => [(key, value)]
  | (k, v) :: rest, key, value =>
    if k == key then (k, value) :: rest else (k, v) :: setKey rest key value

/-- The dialect DDL renderer consumed by `Migrate` (`cls.ddl`).  Each method
renders one semantic change as one SQL statement string. -/
structure DDL where
  create_table : Model → String
  drop_table : Model → String
  add_column : Model → Field → String
  drop_column : Model → String → String
  modify_column : Model → Field → String
  rename_column : Model → String → Field → String
  add_index : Model → List String → Bool → String
  drop_index : Model → List String → Bool → String
  add_fk : Model → Field → String
  drop_fk : Model → Field → String
  create_m2m_table : Model → Field → String
  drop_m2m : Field → String
  alter_column_default : Model → Field → String
  alter_column_null : Model → Field → String
  set_comment : Model → Field → String

/-- The interactive rename confirmation `ask_rename_column(old, new)`. -/
abbrev Oracle := String → String → Bool

/-- The class-level accumulator attributes of `Migrate`
(migrate.py lines 23-31), made explicit. -/
structure MigrateState where
  upgrade_operators : List String
  downgrade_operators : List String
  upgrade_fk_m2m_index_operators : List String
  downgrade_fk_m2m_index_operators : List String
  upgrade_m2m : List String
  downgrade_m2m : List String
  column_reflex : List (String × String)
deriving DecidableEq

/-- The initial values of the `Migrate` class attributes: all empty. -/
def initState : MigrateState := ⟨[], [], [], [], [], [], []⟩

namespace Migrate

/-- `Migrate._add_operator`: append to the ordinary or to the
fk/m2m/index operator list of the requested direction. -/
def _add_operator (op : String) (upgrade : Bool) (fk : Bool) (st : MigrateState) :
    MigrateState :=
  if upgrade then
    if fk then
      { st with upgrade_fk_m2m_index_operators := st.upgrade_fk_m2m_index_operators ++ [op] }
    else
      { st with upgrade_operators := st.upgrade_operators ++ [op] }
  else
    if fk then
      { st with downgrade_fk_m2m_index_operators := st.downgrade_fk_m2m_index_operators ++ [op] }
    else
      { st with downgrade_operators := st.downgrade_operators ++ [op] }

/-- `Migrate._is_fk_m2m`: isinstance check against
`ForeignKeyFieldInstance`/`ManyToManyFieldInstance`. -/
def _is_fk_m2m (f : Field) : Bool :=
  match f.role with
  | .foreignKey => true
  | .manyToMany => true
  | _ => false

/-- `Migrate._exclude_field`: backward relations are always excluded; an m2m
field is excluded when its `through` table was already seen in this
direction's pass, otherwise the `through` name is recorded. -/
def _exclude_field (f : Field) (upgrade : Bool) (st : MigrateState) :
    Bool × MigrateState :=
  match f.role with
  | .manyToMany =>
    if upgrade then
      if st.upgrade_m2m.contains f.through then (true, st)
      else (false, { st with upgrade_m2m := st.upgrade_m2m ++ [f.through] })
    else
      if st.downgrade_m2m.contains f.through then (true, st)
      else (false, { st with downgrade_m2m := st.downgrade_m2m ++ [f.through] })
  | .backwardRelation => (true, st)
  | _ => (false, st)

/-- `Migrate._resolve_fk_fields_name`. -/
def _resolve_fk_fields_name (model : Model) (names : List String) : List String :=
  names.map (fun n => if model.fk_fields.contains n then n ++ "_id" else n)

/-- `Migrate._remove_index`. -/
def _remove_index (ddl : DDL) (model : Model) (names : List String) (unique : Bool) :
    String :=
  ddl.drop_index model (_resolve_fk_fields_name model names) unique

/-- `Migrate._add_index`. -/
def _add_index (ddl : DDL) (model : Model) (names : List String) (unique : Bool) :
    String :=
  ddl.add_index model (_resolve_fk_fields_name model names) unique

/-- `Migrate._add_field`: dispatch on the field role. -/
def _add_field (ddl : DDL) (model : Model) (f : Field) : String :=
  match f.role with
  | .foreignKey => ddl.add_fk model f
  | .manyToMany => ddl.create_m2m_table model f
  | _ => ddl.add_column model f

/-- `Migrate._remove_field`: dispatch on the field role. -/
def _remove_field (ddl : DDL) (model : Model) (f : Field) : String :=
  match f.role with
  | .foreignKey => ddl.drop_fk model f
  | .manyToMany => ddl.drop_m2m f
  | _ => ddl.drop_column model f.name

/-- Body of the first loop of `Migrate.diff_model` for one field present in
both models (lines 274-313): structural comparison (postgres splits
null/default/comment changes into extra statements), then the independent
`index`/`unique` comparison (an if/elif pair). -/
def diffCommonField (dialect : String) (ddl : DDL) (old_model new_model : Model)
    (old_field new_field : Field) (upgrade : Bool) (st : MigrateState) : MigrateState :=
  let st :=
    if !(_is_fk_m2m new_field) &&
        new_field.structuralDescribe != old_field.structuralDescribe then
      let st :=
        if dialect == "postgres" then
          let st :=
            if new_field.null != old_field.null then
              _add_operator (ddl.alter_column_null new_model new_field) upgrade false st
            else st
          let st :=
            if new_field.default != old_field.default then
              _add_operator (ddl.alter_column_default new_model new_field) upgrade false st
            else st
          if new_field.description != old_field.description then
            _add_operator (ddl.set_comment new_model new_field) upgrade false st
          else st
        else st
      _add_operator (ddl.modify_column new_model new_field) upgrade false st
    else st
  if (old_field.index && !new_field.index) || (old_field.unique && !new_field.unique) then
    _add_operator (_remove_index ddl old_model [old_field.name] old_field.unique)
      upgrade (_is_fk_m2m old_field) st
  else if (new_field.index && !old_field.index) || (new_field.unique && !old_field.unique) then
    _add_operator (_add_index ddl new_model [new_field.name] new_field.unique)
      upgrade (_is_fk_m2m new_field) st
  else st

/-- First loop of `Migrate.diff_model` (lines 267-313): walk the new model's
fields in order, collecting new-only fields into `new_model_changed` and
diffing fields present in both models. -/
def diffNewFields (dialect : String) (ddl : DDL) (old_model new_model : Model)
    (upgrade : Bool) :
    List (String × Field) → List (String × Field) → MigrateState →
      List (String × Field) × MigrateState
  | [], changed, st => (changed, st)
  | (new_key, new_field) :: rest, changed, st =>
    if (_exclude_field new_field upgrade st).1 then
      diffNewFields dialect ddl old_model new_model upgrade rest changed
        (_exclude_field new_field upgrade st).2
    else
      match lookupA old_model.fields_map new_key with
      | none =>
        diffNewFields dialect ddl old_model new_model upgrade rest
          (changed ++ [(new_key, new_field)]) (_exclude_field new_field upgrade st).2
      | some old_field =>
        diffNewFields dialect ddl old_model new_model upgrade rest changed
          (diffCommonField dialect ddl old_model new_model old_field new_field upgrade
            (_exclude_field new_field upgrade st).2)

/-- The candidate scan of the upgrade rename branch (lines 323-337): first
entry of `new_model_changed` whose describe (minus name/db_column) matches and
for which the oracle confirms the rename. -/
def findRenameCandidate (oracle : Oracle) (old_name : String)
    (old_cmp : FieldRenameDescribe) :
    List (String × Field) → Option (String × Field)
  | [] => none
  | (nk, nf) :: rest =>
    if old_cmp == nf.renameDescribe then
      if oracle old_name nf.name then some (nk, nf)
      else findRenameCandidate oracle old_name old_cmp rest
    else findRenameCandidate oracle old_name old_cmp rest

/-- Second loop of `Migrate.diff_model` (lines 315-354): for each old-only
field, attempt rename resolution (asking the oracle during the upgrade pass,
consulting `_column_reflex` during the downgrade pass), otherwise remove the
field.  `new_model_changed[new_name]` raises `KeyError` when a stored
correlation points at a field that is not pending, hence the `Except`. -/
def diffOldFields (ddl : DDL) (oracle : Oracle) (old_model new_model : Model)
    (upgrade : Bool) :
    List (String × Field) → List (String × Field) → MigrateState →
      Except String (List (String × Field) × MigrateState)
  | [], changed, st => .ok (changed, st)
  | (old_key, field) :: rest, changed, st =>
    if (lookupA new_model.fields_map old_key).isSome then
      diffOldFields ddl oracle old_model new_model upgrade rest changed st
    else
      if (_exclude_field field upgrade st).1 then
        diffOldFields ddl oracle old_model new_model upgrade rest changed
          (_exclude_field field upgrade st).2
      else
        if upgrade then
          match findRenameCandidate oracle field.name field.renameDescribe changed with
          | some (nk, nf) =>
            diffOldFields ddl oracle old_model new_model upgrade rest
              (popKey changed nk)
              (let st := _add_operator (ddl.rename_column new_model field.name nf)
                upgrade (_is_fk_m2m nf) (_exclude_field field upgrade st).2
               { st with column_reflex := setKey st.column_reflex nf.name field.name })
          | none =>
            diffOldFields ddl oracle old_model new_model upgrade rest changed
              (_add_operator (_remove_field ddl old_model field) upgrade
                (_is_fk_m2m field) (_exclude_field field upgrade st).2)
        else
          match lookupA (_exclude_field field upgrade st).2.column_reflex field.name with
          | some new_name =>
            if new_name ≠ "" then
              match lookupA changed new_name with
              | some nf =>
                diffOldFields ddl oracle old_model new_model upgrade rest
                  (popKey changed new_name)
                  (let st := _add_operator (ddl.rename_column new_model field.name nf)
                    upgrade (_is_fk_m2m nf) (_exclude_field field upgrade st).2
                   { st with column_reflex := popKey st.column_reflex field.name })
              | none => .error "KeyError"
            else
              diffOldFields ddl oracle old_model new_model upgrade rest changed
                (_add_operator (_remove_field ddl old_model field) upgrade
                  (_is_fk_m2m field) (_exclude_field field upgrade st).2)
          | none =>
            diffOldFields ddl oracle old_model new_model upgrade rest changed
              (_add_operator (_remove_field ddl old_model field) upgrade
                (_is_fk_m2m field) (_exclude_field field upgrade st).2)

/-- Third loop of `Migrate.diff_model` (lines 355-360): add all remaining
new-only fields. -/
def addRemaining (ddl : DDL) (new_model : Model) (upgrade : Bool) :
    List (String × Field) → MigrateState → MigrateState
  | [], st => st
  | (_, nf) :: rest, st =>
    addRemaining ddl new_model upgrade rest
      (_add_operator (_add_field ddl new_model nf) upgrade (_is_fk_m2m nf) st)

/-- Composite `_meta.indexes` diff of `Migrate.diff_model` (lines 362-367);
note the `fk` argument of `_add_operator` is left at its default `False`. -/
def diffIndexes (ddl : DDL) (old_model new_model : Model) (upgrade : Bool)
    (st : MigrateState) : MigrateState :=
  let st := new_model.indexes.foldl
    (fun st idx =>
      if old_model.indexes.contains idx then st
      else _add_operator (_add_index ddl new_model idx false) upgrade false st) st
  old_model.indexes.foldl
    (fun st idx =>
      if new_model.indexes.contains idx then st
      else _add_operator (_remove_index ddl old_model idx false) upgrade false st) st

/-- `unique_together` diff of `Migrate.diff_model` (lines 369-375); again the
`fk` argument of `_add_operator` is left at its default `False`. -/
def diffUniqueTogether (ddl : DDL) (old_model new_model : Model) (upgrade : Bool)
    (st : MigrateState) : MigrateState :=
  let st := new_model.unique_together.foldl
    (fun st u =>
      if old_model.unique_together.contains u then st
      else _add_operator (_add_index ddl new_model u true) upgrade false st) st
  old_model.unique_together.foldl
    (fun st u =>
      if new_model.unique_together.contains u then st
      else _add_operator (_remove_index ddl old_model u true) upgrade false st) st

/-- `Migrate.diff_model` (lines 247-375). -/
def diff_model (dialect : String) (ddl : DDL) (oracle : Oracle)
    (old_model new_model : Model) (upgrade : Bool) (st : MigrateState) :
    Except String MigrateState :=
  let cs := diffNewFields dialect ddl old_model new_model upgrade
    new_model.fields_map [] st
  match diffOldFields ddl oracle old_model new_model upgrade
      old_model.fields_map cs.1 cs.2 with
  | .error e => .error e
  | .ok (changed, st) =>
    let st := addRemaining ddl new_model upgrade changed st
    let st := diffIndexes ddl old_model new_model upgrade st
    .ok (diffUniqueTogether ddl old_model new_model upgrade st)

/-- New-model loop of `Migrate.diff_models` (lines 224-228). -/
def diffModelsNew (dialect : String) (ddl : DDL) (oracle : Oracle)
    (olds : List (String × Model)) (upgrade : Bool) :
    List (String × Model) → MigrateState → Except String MigrateState
  | [], st => .ok st
  | (k, m) :: rest, st =>
    match lookupA olds k with
    | none =>
      diffModelsNew dialect ddl oracle olds upgrade rest
        (_add_operator (ddl.create_table m) upgrade false st)
    | some om =>
      match diff_model dialect ddl oracle om m upgrade st with
      | .error e => .error e
      | .ok st => diffModelsNew dialect ddl oracle olds upgrade rest st

/-- Old-model loop of `Migrate.diff_models` (lines 230-232). -/
def diffModelsOld (ddl : DDL) (news : List (String × Model)) (upgrade : Bool) :
    List (String × Model) → MigrateState → MigrateState
  | [], st => st
  | (k, m) :: rest, st =>
    if (lookupA news k).isSome then diffModelsOld ddl news upgrade rest st
    else diffModelsOld ddl news upgrade rest
      (_add_operator (ddl.drop_table m) upgrade false st)

/-- `Migrate.diff_models` (lines 210-232).  The first two components of the
result are the caller's mappings after the in-place
`old_models.pop("Aerich", None)` / `new_models.pop("Aerich", None)`
(this mutation happens before any diffing, so it is returned even when the
diff itself fails). -/
def diff_models (dialect : String) (ddl : DDL) (oracle : Oracle)
    (old_models new_models : List (String × Model)) (upgrade : Bool)
    (st : MigrateState) :
    List (String × Model) × List (String × Model) × Except String MigrateState :=
  let olds := popKey old_models "Aerich"
  let news := popKey new_models "Aerich"
  (olds, news,
    match diffModelsNew dialect ddl oracle olds upgrade news st with
    | .error e => .error e
    | .ok st => .ok (diffModelsOld ddl news upgrade olds st))

/-- Is there an occurrence of `pat` inside the character list?  Models the
Python substring test `pat in s`. -/
def isInfixOfL (pat : List Char) : List Char → Bool
  | [] => pat.isPrefixOf []
  | c :: rest => pat.isPrefixOf (c :: rest) || isInfixOfL pat rest

/-- Python `pat in s` on strings. -/
def strContains (s pat : String) : Bool := isInfixOfL pat.data s.data

/-- Classification used by `Migrate._merge_operators`:
`"ADD" in operator or "CREATE" in operator`. -/
def isCreationOp (op : String) : Bool :=
  strContains op "ADD" || strContains op "CREATE"

/-- One direction of `Migrate._merge_operators`: walk the fk/m2m/index
operator list; creation-class operators are appended at the end of the
ordinary list, the rest are inserted at position 0. -/
def mergeRefs (ordinary refs : List String) : List String :=
  refs.foldl (fun acc op => if isCreationOp op then acc ++ [op] else op :: acc) ordinary

/-- `Migrate._merge_operators` (lines 475-491). -/
def _merge_operators (st : MigrateState) : MigrateState :=
  { st with
    upgrade_operators :=
      mergeRefs st.upgrade_operators st.upgrade_fk_m2m_index_operators
    downgrade_operators :=
      mergeRefs st.downgrade_operators st.downgrade_fk_m2m_index_operators }

/-- Decimal digit characters of a positive number, most significant first
(fuel-structural so that it evaluates by kernel reduction).  Models the
decimal rendering of a Python int inside an f-string. -/
def natDigitsCore : Nat → Nat → List Char
  | 0, _ => []
  | fuel + 1, n =>
    if n < 10 then [Char.ofNat (48 + n)]
    else natDigitsCore fuel (n / 10) ++ [Char.ofNat (48 + n % 10)]

/-- Decimal rendering of a natural number, as Python's `str`/f-string does. -/
def natRepr (n : Nat) : String := ⟨natDigitsCore (n + 1) n⟩

/-- Python `int` over a digit string (the stored versions this code reads
back always start with the decimal digits it generated). -/
def parseNatChars : List Char → Nat → Nat
  | [], acc => acc
  | c :: cs, acc => parseNatChars cs (acc * 10 + (c.toNat - 48))

/-- Python `int(s)` for a digit string. -/
def parseNat (s : String) : Nat := parseNatChars s.data 0

/-- Python `version.split("_", 1)[0]`. -/
def splitHead (s : String) : String := ⟨s.data.takeWhile (fun c => c != '_')⟩

/-- `MAX_VERSION_LENGTH` from `aerich.models`. -/
def MAX_VERSION_LENGTH : Nat := 255

/-- `Migrate._get_last_version_num` (lines 81-87): `None` when no version row
exists, otherwise `int(version.split("_", 1)[0])` of the stored version. -/
def _get_last_version_num (lastVersion : Option String) : Option Nat :=
  lastVersion.map (fun v => parseNat (splitHead v))

/-- `Migrate.generate_version` (lines 89-98).  The timestamp and the stored
last version are external inputs. -/
def generate_version (lastVersion : Option String) (now : String) (name : String) :
    Except String String :=
  match _get_last_version_num lastVersion with
  | none => .ok ("0_" ++ now ++ "_init.json")
  | some last =>
    let version := natRepr (last + 1) ++ "_" ++ now ++ "_" ++ name ++ ".json"
    if version.length > MAX_VERSION_LENGTH then
      .error "Version name exceeds maximum length"
    else .ok version

/-- `Migrate.migrate` (lines 111-129): diff in both directions (the second
call receives the dicts already mutated by the first), merge the fk/m2m/index
operators, return `""` when no upgrade operator was produced, otherwise the
generated version file name.  File writing is external. -/
def migrate (dialect : String) (ddl : DDL) (oracle : Oracle) (name now : String)
    (lastVersion : Option String) (diffModelsMap appModelsMap : List (String × Model))
    (st : MigrateState) : Except String (String × MigrateState) :=
  let r1 := diff_models dialect ddl oracle diffModelsMap appModelsMap true st
  match r1.2.2 with
  | .error e => .error e
  | .ok st1 =>
    let r2 := diff_models dialect ddl oracle r1.2.1 r1.1 false st1
    match r2.2.2 with
    | .error e => .error e
    | .ok st2 =>
      let st3 := _merge_operators st2
      if st3.upgrade_operators.isEmpty then .ok ("", st3)
      else
        match generate_version lastVersion now name with
        | .error e => .error e
        | .ok v => .ok (v, st3)

end Migrate

/-- Error raised by DDL backends for operations they cannot perform
(`aerich.exceptions.NotSupportError`). -/
inductive DdlError where
  | notSupport (msg : String)
deriving DecidableEq

namespace SqliteDDL

/-- `SqliteDDL.drop_column` (aerich/ddl/sqlite/__init__.py lines 15-16):
unconditionally raises `NotSupportError`. -/
def drop_column (_model : Model) (_column_name : String) : Except DdlError String :=
  .error (.notSupport "Drop column is not support in SQLite.")

/-- `SqliteDDL.modify_column` (lines 18-19): unconditionally raises
`NotSupportError`. -/
def modify_column (_model : Model) (_field_object : Field) : Except DdlError String :=
  .error (.notSupport "Modify column is not support in SQLite.")

/-- `SqliteDDL.rename_column` (lines 20-21): unconditionally raises
`NotSupportError`. -/
def rename_column (_model : Model) (_old_column_name : String)
    (_field_object : Field) : Except DdlError String :=
  .error (.notSupport "Rename column is not support in SQLite.")

end SqliteDDL

/-- Modelled from the spec: the dialect DDL renderers other than the three
SQLite overrides (`aerich/ddl/__init__.py` and the mysql/postgres modules are
not part of this repository snapshot).  Following spec section 4.4, each
method is a pure renderer returning exactly one SQL statement string, and
following section 4.5 creation statements carry an ADD/CREATE verb. -/
def specDDL : DDL where
  create_table := fun m => "CREATE TABLE " ++ m.table
  drop_table := fun m => "DROP TABLE " ++ m.table
  add_column := fun m f => "ALTER TABLE " ++ m.table ++ " ADD COLUMN " ++ f.db_column
  drop_column := fun m c => "ALTER TABLE " ++ m.table ++ " DROP COLUMN " ++ c
  modify_column := fun m f => "ALTER TABLE " ++ m.table ++ " MODIFY COLUMN " ++ f.db_column
  rename_column := fun m old f =>
    "ALTER TABLE " ++ m.table ++ " RENAME COLUMN " ++ old ++ " TO " ++ f.db_column
  add_index := fun m cols u =>
    "ALTER TABLE " ++ m.table ++ " ADD " ++ (if u then "UNIQUE " else "") ++
      "INDEX (" ++ String.intercalate ", " cols ++ ")"
  drop_index := fun m cols u =>
    "ALTER TABLE " ++ m.table ++ " DROP " ++ (if u then "UNIQUE " else "") ++
      "INDEX (" ++ String.intercalate ", " cols ++ ")"
  add_fk := fun m f => "ALTER TABLE " ++ m.table ++ " ADD FOREIGN KEY (" ++ f.db_column ++ ")"
  drop_fk := fun m f => "ALTER TABLE " ++ m.table ++ " DROP FOREIGN KEY (" ++ f.db_column ++ ")"
  create_m2m_table := fun _ f => "CREATE TABLE " ++ f.through
  drop_m2m := fun f => "DROP TABLE " ++ f.through
  alter_column_default := fun m f =>
    "ALTER TABLE " ++ m.table ++ " ALTER COLUMN " ++ f.db_column ++ " SET DEFAULT"
  alter_column_null := fun m f =>
    "ALTER TABLE " ++ m.table ++ " ALTER COLUMN " ++ f.db_column ++ " DROP NOT NULL"
  set_comment := fun m f => "COMMENT ON COLUMN " ++ m.table ++ "." ++ f.db_column

/-- An oracle that confirms every rename. -/
def yesOracle : Oracle := fun _ _ => true

/-- A plain CharField-style descriptor used in the concrete test models. -/
def charField (nm : String) (unique index : Bool) : Field :=
  ⟨nm, nm, "CharField", false, unique, index, none, none, .plain, ""⟩

/-- Concrete model: a `user` table with a unique name and an email column. -/
def userModel : Model :=
  ⟨"user", [("name", charField "name" true false), ("email", charField "email" false false)],
    [], [], []⟩

/-- Concrete model with an m2m field and composite metadata. -/
def categoryModel : Model :=
  ⟨"category",
    [("slug", charField "slug" false false),
     ("products",
       ⟨"products", "products", "ManyToManyFieldInstance", false, false, false, none, none,
         .manyToMany, "category_product"⟩)],
    [["slug"]], [["slug"]], []⟩

/-- Concrete model for the migration-history table `Aerich`. -/
def aerichModel : Model :=
  ⟨"aerich", [("version", charField "version" false false), ("app", charField "app" false false)],
    [], [], []⟩

/-- Concrete model set containing the `Aerich` entry. -/
def c10old : List (String × Model) := [("Aerich", aerichModel), ("User", userModel)]

/-- Concrete model set containing the `Aerich` entry (new side). -/
def c10new : List (String × Model) :=
  [("Aerich", aerichModel), ("User", userModel), ("Category", categoryModel)]

/-- Concrete model for the `Info` table added in the current models. -/
def infoModel : Model := ⟨"info", [("msg3", charField "msg3" false false)], [], [], []⟩

/-- Baseline model set for the repeated-invocation scenario: empty. -/
def c9old : List (String × Model) := []

/-- Current model set for the repeated-invocation scenario: one new table. -/
def c9new : List (String × Model) := [("Info", infoModel)]

/-- Old side of the lost-and-gained-constraint scenario: `tag` is indexed
but not unique. -/
def c4old : Model := ⟨"user", [("tag", charField "tag" false true)], [], [], []⟩

/-- New side of the lost-and-gained-constraint scenario: `tag` is unique
but not indexed. -/
def c4new : Model := ⟨"user", [("tag", charField "tag" true false)], [], [], []⟩

/-- Old side of the composite-unique scenario, table `a`. -/
def c5oldA : Model :=
  ⟨"a", [("x", charField "x" false false), ("y", charField "y" false false)], [], [], []⟩

/-- New side of the composite-unique scenario, table `a`: gains the
composite unique index `(x, y)`. -/
def c5newA : Model :=
  ⟨"a", [("x", charField "x" false false), ("y", charField "y" false false)], [],
    [["x", "y"]], []⟩

/-- Old side of the composite-unique scenario, table `b`. -/
def c5oldB : Model := ⟨"b", [("p", charField "p" false false)], [], [], []⟩

/-- New side of the composite-unique scenario, table `b`: gains a plain
column `q`, an ordinary operator discovered after table `a`'s index. -/
def c5newB : Model :=
  ⟨"b", [("p", charField "p" false false), ("q", charField "q" false false)], [], [], []⟩

/-- Model sets for the composite-unique scenario. -/
def c5oldModels : List (String × Model) := [("A", c5oldA), ("B", c5oldB)]

/-- Model sets for the composite-unique scenario (new side). -/
def c5newModels : List (String × Model) := [("A", c5newA), ("B", c5newB)]

/-- Concrete model set used as identical old and new sides. -/
def c1models : List (String × Model) := [("User", userModel), ("Category", categoryModel)]

end Aerich

namespace Aerich

open Migrate

/-- Equality of the four operator lists and of the rename-correlation map
between two states (the m2m dedup lists may differ). -/
def opsPreserved (st st' : MigrateState) : Prop :=
  st'.upgrade_operators = st.upgrade_operators ∧
  st'.downgrade_operators = st.downgrade_operators ∧
  st'.upgrade_fk_m2m_index_operators = st.upgrade_fk_m2m_index_operators ∧
  st'.downgrade_fk_m2m_index_operators = st.downgrade_fk_m2m_index_operators ∧
  st'.column_reflex = st.column_reflex

theorem lookupA_eq_none {α : Type} (l : List (String × α)) (k : String)
    (h : k ∉ l.map Prod.fst) : lookupA l k = none := by
  induction l with
  | nil => rfl
  | cons p rest ih =>
    obtain ⟨k1, v1⟩ := p
    simp only [List.map_cons, List.mem_cons, not_or] at h
    have hne : ¬ k1 = k := fun hc => h.1 hc.symm
    simp [lookupA, hne, ih h.2]

theorem lookupA_isSome_of_mem {α : Type} (l : List (String × α)) (k : String) (v : α)
    (h : (k, v) ∈ l) : (lookupA l k).isSome := by
  induction l with
  | nil => simp at h
  | cons p rest ih =>
    obtain ⟨k1, v1⟩ := p
    rcases List.mem_cons.mp h with h1 | h1
    · obtain ⟨hk, hv⟩ := Prod.mk.injEq .. ▸ h1
      subst hk
      simp [lookupA]
    · by_cases hc : k1 = k
      · simp [lookupA, hc]
      · simp [lookupA, hc, ih h1]

theorem lookupA_of_mem_nodup {α : Type} (l : List (String × α)) (k : String) (v : α)
    (hm : (k, v) ∈ l) (hn : (l.map Prod.fst).Nodup) : lookupA l k = some v := by
  induction l with
  | nil => simp at hm
  | cons p rest ih =>
    obtain ⟨k1, v1⟩ := p
    simp only [List.map_cons, List.nodup_cons] at hn
    rcases List.mem_cons.mp hm with h1 | h1
    · obtain ⟨hk, hv⟩ := Prod.mk.injEq .. ▸ h1
      subst hk; subst hv
      simp [lookupA]
    · have hne : ¬ k1 = k := by
        intro hc
        subst hc
        exact hn.1 (List.mem_map.mpr ⟨(k1, v), h1, rfl⟩)
      simp [lookupA, hne, ih h1 hn.2]

theorem popKey_sublist {α : Type} (l : List (String × α)) (k : String) :
    (popKey l k).Sublist l := by
  induction l with
  | nil => simp [popKey]
  | cons p rest ih =>
    obtain ⟨k1, v1⟩ := p
    by_cases hc : k1 = k
    · simp only [popKey, hc, beq_self_eq_true, if_true]
      exact List.sublist_cons_self _ rest
    · simp only [popKey, beq_iff_eq, hc, if_false]
      exact List.Sublist.cons₂ _ ih

theorem lookupA_popKey_ne {α : Type} (l : List (String × α)) (k key : String)
    (h : key ≠ k) : lookupA (popKey l k) key = lookupA l key := by
  induction l with
  | nil => rfl
  | cons p rest ih =>
    obtain ⟨k1, v1⟩ := p
    by_cases hc : k1 = k
    · subst hc
      have hne : ¬ k1 = key := fun hc2 => h hc2.symm
      simp [popKey, lookupA, hne]
    · by_cases hk : k1 = key
      · subst hk
        simp [popKey, lookupA, hc]
      · simp [popKey, lookupA, hc, hk, ih]

theorem lookupA_popKey_self {α : Type} (l : List (String × α)) (k : String)
    (hn : (l.map Prod.fst).Nodup) : lookupA (popKey l k) k = none := by
  induction l with
  | nil => rfl
  | cons p rest ih =>
    obtain ⟨k1, v1⟩ := p
    simp only [List.map_cons, List.nodup_cons] at hn
    by_cases hc : k1 = k
    · subst hc
      simp only [popKey, beq_self_eq_true, if_true]
      exact lookupA_eq_none rest k1 hn.1
    · simp [popKey, lookupA, hc, ih hn.2]

theorem mergeRefs_eq (ordinary refs : List String) :
    mergeRefs ordinary refs =
      (refs.filter (fun op => !isCreationOp op)).reverse ++ ordinary ++
        refs.filter (fun op => isCreationOp op) := by
  induction refs generalizing ordinary with
  | nil => simp [mergeRefs]
  | cons r rest ih =>
    by_cases h : isCreationOp r
    · have := ih (ordinary ++ [r])
      simp only [mergeRefs, List.foldl_cons, h, if_true] at this ⊢
      simp [this, h]
    · have := ih (r :: ordinary)
      simp only [mergeRefs, List.foldl_cons, h, if_false] at this ⊢
      simp [this, h]


end Aerich

namespace Aerich

open Migrate

/-- C6: in each direction `_merge_operators` places every fk/m2m/index
operator whose rendered SQL contains a creation verb (`ADD` or `CREATE`)
after all ordinary operators, places every one without a creation verb
before all ordinary operators, and keeps the ordinary operators in their
discovery order: the merged list is exactly the reversed non-creation
referential operators, then the ordinary operators unchanged, then the
creation-class referential operators. -/
theorem merge_operators_sequencing (st : MigrateState) :
    (_merge_operators st).upgrade_operators =
        (st.upgrade_fk_m2m_index_operators.filter (fun op => !isCreationOp op)).reverse ++
          st.upgrade_operators ++
          st.upgrade_fk_m2m_index_operators.filter (fun op => isCreationOp op) ∧
    (_merge_operators st).downgrade_operators =
        (st.downgrade_fk_m2m_index_operators.filter (fun op => !isCreationOp op)).reverse ++
          st.downgrade_operators ++
          st.downgrade_fk_m2m_index_operators.filter (fun op => isCreationOp op) :=
  ⟨mergeRefs_eq _ _, mergeRefs_eq _ _⟩

/-- C7: every `drop_column`, `modify_column` or `rename_column` request to
the SQLite DDL generator fails with the unsupported-capability error
(`NotSupportError`) and never returns an SQL string. -/
theorem sqlite_unsupported_operations (m : Model) (c : String) (f : Field)
    (old : String) :
    SqliteDDL.drop_column m c =
        .error (.notSupport "Drop column is not support in SQLite.") ∧
    SqliteDDL.modify_column m f =
        .error (.notSupport "Modify column is not support in SQLite.") ∧
    SqliteDDL.rename_column m old f =
        .error (.notSupport "Rename column is not support in SQLite.") ∧
    (∀ sql, SqliteDDL.drop_column m c ≠ .ok sql) ∧
    (∀ sql, SqliteDDL.modify_column m f ≠ .ok sql) ∧
    (∀ sql, SqliteDDL.rename_column m old f ≠ .ok sql) := by
  refine ⟨rfl, rfl, rfl, ?_, ?_, ?_⟩ <;> intro sql h <;>
    simp [SqliteDDL.drop_column, SqliteDDL.modify_column, SqliteDDL.rename_column] at h

/-- C10: `diff_models` removes the migration-history entry `"Aerich"` (when
present) from both of the caller's mappings — the mutation performed by its
two `pop` calls before any diffing — and leaves the lookup of every other
key in both mappings unchanged. -/
theorem diff_models_pops_aerich (dialect : String) (ddl : DDL) (oracle : Oracle)
    (old_models new_models : List (String × Model)) (upgrade : Bool)
    (st : MigrateState)
    (hold : (old_models.map Prod.fst).Nodup)
    (hnew : (new_models.map Prod.fst).Nodup) :
    (diff_models dialect ddl oracle old_models new_models upgrade st).1 =
        popKey old_models "Aerich" ∧
    (diff_models dialect ddl oracle old_models new_models upgrade st).2.1 =
        popKey new_models "Aerich" ∧
    lookupA (diff_models dialect ddl oracle old_models new_models upgrade st).1
        "Aerich" = none ∧
    lookupA (diff_models dialect ddl oracle old_models new_models upgrade st).2.1
        "Aerich" = none ∧
    (∀ k, k ≠ "Aerich" →
      lookupA (diff_models dialect ddl oracle old_models new_models upgrade st).1 k =
        lookupA old_models k) ∧
    (∀ k, k ≠ "Aerich" →
      lookupA (diff_models dialect ddl oracle old_models new_models upgrade st).2.1 k =
        lookupA new_models k) := by
  refine ⟨rfl, rfl, ?_, ?_, ?_, ?_⟩
  · exact lookupA_popKey_self _ _ hold
  · exact lookupA_popKey_self _ _ hnew
  · exact fun k hk => lookupA_popKey_ne _ _ _ hk
  · exact fun k hk => lookupA_popKey_ne _ _ _ hk

/-- Witness for the frame property of `diff_models` at a concrete input:
the `Aerich` entry is gone from both returned mappings and the `User` entry
is untouched. -/
theorem diff_models_pops_aerich_witness :
    lookupA (diff_models "mysql" specDDL yesOracle c10old c10new true initState).1
        "Aerich" = none ∧
    lookupA (diff_models "mysql" specDDL yesOracle c10old c10new true initState).2.1
        "Aerich" = none ∧
    lookupA (diff_models "mysql" specDDL yesOracle c10old c10new true initState).1
        "User" = lookupA c10old "User" := by
  have h := diff_models_pops_aerich "mysql" specDDL yesOracle c10old c10new true
    initState (by decide) (by decide)
  exact ⟨h.2.2.1, h.2.2.2.1, h.2.2.2.2.1 "User" (by decide)⟩

/-- C9 is refuted by the code: the accumulator state of `Migrate` is held in
class attributes that are never cleared, so the operators collected by one
complete `migrate` invocation remain observable by the next invocation in
the same process — the second invocation starts from the first one's final
accumulators (here it sees the first run's CREATE TABLE operator and ends
with it duplicated), not from empty ones. -/
theorem migrate_state_leaks_across_invocations :
    ∃ st1 st2 v2,
      migrate "mysql" specDDL yesOracle "second" "ts" none c9old c9new initState =
        .ok ("0_ts_init.json", st1) ∧
      st1.upgrade_operators = [specDDL.create_table infoModel] ∧
      st1.downgrade_operators = [specDDL.drop_table infoModel] ∧
      migrate "mysql" specDDL yesOracle "second" "ts" none c9old c9new st1 =
        .ok (v2, st2) ∧
      st2.upgrade_operators =
        [specDDL.create_table infoModel, specDDL.create_table infoModel] ∧
      st2.downgrade_operators =
        [specDDL.drop_table infoModel, specDDL.drop_table infoModel] :=
  ⟨_, _, _, rfl, rfl, rfl, rfl, rfl, rfl⟩

end Aerich

namespace Aerich

open Migrate

theorem mem_contains {α : Type} [BEq α] [LawfulBEq α] (l : List α) (x : α)
    (h : x ∈ l) : l.contains x = true := by
  simpa using h

theorem opsPreserved_refl (st : MigrateState) : opsPreserved st st :=
  ⟨rfl, rfl, rfl, rfl, rfl⟩

theorem opsPreserved_trans {s1 s2 s3 : MigrateState} (h1 : opsPreserved s1 s2)
    (h2 : opsPreserved s2 s3) : opsPreserved s1 s3 := by
  obtain ⟨a1, b1, c1, d1, e1⟩ := h1
  obtain ⟨a2, b2, c2, d2, e2⟩ := h2
  exact ⟨a2.trans a1, b2.trans b1, c2.trans c1, d2.trans d1, e2.trans e1⟩

theorem opsPreserved_exclude (f : Field) (u : Bool) (st : MigrateState) :
    opsPreserved st (_exclude_field f u st).2 := by
  cases hr : f.role
  · simp only [_exclude_field, hr]; exact opsPreserved_refl st
  · simp only [_exclude_field, hr]; exact opsPreserved_refl st
  · simp only [_exclude_field, hr]
    split_ifs <;> exact opsPreserved_refl st
  · simp only [_exclude_field, hr]; exact opsPreserved_refl st

theorem diffCommonField_self (dialect : String) (ddl : DDL) (om nm : Model)
    (f : Field) (u : Bool) (st : MigrateState) :
    diffCommonField dialect ddl om nm f f u st = st := by
  simp [diffCommonField]

theorem diffNewFields_pres (dialect : String) (ddl : DDL) (om nm : Model) (u : Bool)
    (sub : List (String × Field))
    (h : ∀ p ∈ sub, lookupA om.fields_map p.1 = some p.2) :
    ∀ changed st, ∃ st',
      diffNewFields dialect ddl om nm u sub changed st = (changed, st') ∧
      opsPreserved st st' := by
  induction sub with
  | nil => exact fun changed st => ⟨st, rfl, opsPreserved_refl st⟩
  | cons p rest ih =>
    intro changed st
    obtain ⟨k, f⟩ := p
    have hk : lookupA om.fields_map k = some f := h (k, f) (List.mem_cons_self _ _)
    have hrest : ∀ p ∈ rest, lookupA om.fields_map p.1 = some p.2 :=
      fun p hp => h p (List.mem_cons_of_mem _ hp)
    by_cases he : (_exclude_field f u st).1 = true
    · obtain ⟨st', h1, h2⟩ := ih hrest changed (_exclude_field f u st).2
      refine ⟨st', ?_, opsPreserved_trans (opsPreserved_exclude f u st) h2⟩
      simp only [diffNewFields]
      rw [if_pos he]
      exact h1
    · obtain ⟨st', h1, h2⟩ := ih hrest changed (_exclude_field f u st).2
      refine ⟨st', ?_, opsPreserved_trans (opsPreserved_exclude f u st) h2⟩
      simp only [diffNewFields, hk]
      rw [if_neg he, diffCommonField_self]
      exact h1

theorem diffOldFields_skip (ddl : DDL) (oracle : Oracle) (om nm : Model) (u : Bool)
    (sub : List (String × Field))
    (h : ∀ p ∈ sub, (lookupA nm.fields_map p.1).isSome = true) :
    ∀ changed st, diffOldFields ddl oracle om nm u sub changed st = .ok (changed, st) := by
  induction sub with
  | nil => intro changed st; rfl
  | cons p rest ih =>
    intro changed st
    obtain ⟨k, f⟩ := p
    have hk := h (k, f) (List.mem_cons_self _ _)
    simp only [diffOldFields]
    rw [if_pos hk]
    exact ih (fun p hp => h p (List.mem_cons_of_mem _ hp)) changed st

theorem foldl_contains_skip (L M : List (List String))
    (g : MigrateState → List String → MigrateState)
    (h : ∀ x ∈ L, M.contains x = true) :
    ∀ st : MigrateState,
      L.foldl (fun st x => if M.contains x then st else g st x) st = st := by
  induction L with
  | nil => intro st; rfl
  | cons a rest ih =>
    intro st
    simp only [List.foldl_cons]
    rw [if_pos (h a (List.mem_cons_self _ _))]
    exact ih (fun x hx => h x (List.mem_cons_of_mem _ hx)) st

theorem diffIndexes_same (ddl : DDL) (om nm : Model) (u : Bool) (st : MigrateState)
    (h : nm.indexes = om.indexes) : diffIndexes ddl om nm u st = st := by
  unfold diffIndexes
  rw [h]
  rw [foldl_contains_skip om.indexes om.indexes _ (fun x hx => mem_contains _ _ hx)]
  rw [foldl_contains_skip om.indexes om.indexes _ (fun x hx => mem_contains _ _ hx)]

theorem diffUniqueTogether_same (ddl : DDL) (om nm : Model) (u : Bool)
    (st : MigrateState) (h : nm.unique_together = om.unique_together) :
    diffUniqueTogether ddl om nm u st = st := by
  unfold diffUniqueTogether
  rw [h]
  rw [foldl_contains_skip om.unique_together om.unique_together _
    (fun x hx => mem_contains _ _ hx)]
  rw [foldl_contains_skip om.unique_together om.unique_together _
    (fun x hx => mem_contains _ _ hx)]

theorem diff_model_common (dialect : String) (ddl : DDL) (oracle : Oracle)
    (om nm : Model) (u : Bool) (st : MigrateState)
    (hf : nm.fields_map = om.fields_map)
    (hn : (om.fields_map.map Prod.fst).Nodup)
    (hidx : nm.indexes = om.indexes) :
    ∃ stm, diff_model dialect ddl oracle om nm u st =
        .ok (diffUniqueTogether ddl om nm u stm) ∧ opsPreserved st stm := by
  have hlook : ∀ p ∈ nm.fields_map, lookupA om.fields_map p.1 = some p.2 := by
    intro p hp
    rw [hf] at hp
    obtain ⟨k, v⟩ := p
    exact lookupA_of_mem_nodup _ _ _ hp hn
  obtain ⟨st1, h1, h2⟩ := diffNewFields_pres dialect ddl om nm u nm.fields_map hlook [] st
  have hsk : ∀ p ∈ om.fields_map, (lookupA nm.fields_map p.1).isSome = true := by
    intro p hp
    rw [hf]
    obtain ⟨k, v⟩ := p
    exact lookupA_isSome_of_mem _ _ _ hp
  refine ⟨st1, ?_, h2⟩
  simp only [diff_model, h1]
  rw [diffOldFields_skip ddl oracle om nm u om.fields_map hsk [] st1]
  simp only [addRemaining]
  rw [diffIndexes_same ddl om nm u st1 hidx]

theorem diff_model_self (dialect : String) (ddl : DDL) (oracle : Oracle)
    (m : Model) (u : Bool) (st : MigrateState)
    (hn : (m.fields_map.map Prod.fst).Nodup) :
    ∃ st', diff_model dialect ddl oracle m m u st = .ok st' ∧ opsPreserved st st' := by
  obtain ⟨stm, h1, h2⟩ := diff_model_common dialect ddl oracle m m u st rfl hn rfl
  rw [diffUniqueTogether_same ddl m m u stm rfl] at h1
  exact ⟨stm, h1, h2⟩

theorem diffModelsNew_identical (dialect : String) (ddl : DDL) (oracle : Oracle)
    (E : List (String × Model)) (u : Bool)
    (sub : List (String × Model))
    (hmem : ∀ p ∈ sub, lookupA E p.1 = some p.2)
    (hfields : ∀ p ∈ sub, ((p.2.fields_map).map Prod.fst).Nodup) :
    ∀ st, ∃ st', diffModelsNew dialect ddl oracle E u sub st = .ok st' ∧
      opsPreserved st st' := by
  induction sub with
  | nil => exact fun st => ⟨st, rfl, opsPreserved_refl st⟩
  | cons p rest ih =>
    intro st
    obtain ⟨k, m⟩ := p
    have hk : lookupA E k = some m := hmem (k, m) (List.mem_cons_self _ _)
    obtain ⟨stm, hdm, hpres⟩ := diff_model_self dialect ddl oracle m u st
      (hfields (k, m) (List.mem_cons_self _ _))
    obtain ⟨st', h1, h2⟩ := ih (fun p hp => hmem p (List.mem_cons_of_mem _ hp))
      (fun p hp => hfields p (List.mem_cons_of_mem _ hp)) stm
    refine ⟨st', ?_, opsPreserved_trans hpres h2⟩
    simp only [diffModelsNew, hk, hdm]
    exact h1

theorem diffModelsOld_skip (ddl : DDL) (news : List (String × Model)) (u : Bool)
    (sub : List (String × Model))
    (h : ∀ p ∈ sub, (lookupA news p.1).isSome = true) :
    ∀ st, diffModelsOld ddl news u sub st = st := by
  induction sub with
  | nil => intro st; rfl
  | cons p rest ih =>
    intro st
    obtain ⟨k, m⟩ := p
    simp only [diffModelsOld]
    rw [if_pos (h (k, m) (List.mem_cons_self _ _))]
    exact ih (fun p hp => h p (List.mem_cons_of_mem _ hp)) st

theorem diff_models_identical (dialect : String) (ddl : DDL) (oracle : Oracle)
    (M : List (String × Model)) (u : Bool) (st : MigrateState)
    (hM : (M.map Prod.fst).Nodup)
    (hF : ∀ p ∈ M, ((p.2.fields_map).map Prod.fst).Nodup) :
    ∃ st', (diff_models dialect ddl oracle M M u st).2.2 = .ok st' ∧
      opsPreserved st st' := by
  have hsub : (popKey M "Aerich").Sublist M := popKey_sublist M "Aerich"
  have hEn : ((popKey M "Aerich").map Prod.fst).Nodup :=
    hM.sublist (hsub.map Prod.fst)
  have hmem : ∀ p ∈ popKey M "Aerich", lookupA (popKey M "Aerich") p.1 = some p.2 := by
    intro p hp
    obtain ⟨k, v⟩ := p
    exact lookupA_of_mem_nodup _ _ _ hp hEn
  have hFE : ∀ p ∈ popKey M "Aerich", ((p.2.fields_map).map Prod.fst).Nodup :=
    fun p hp => hF p (hsub.subset hp)
  obtain ⟨st1, h1, h2⟩ := diffModelsNew_identical dialect ddl oracle
    (popKey M "Aerich") u (popKey M "Aerich") hmem hFE st
  have hskip : ∀ p ∈ popKey M "Aerich", (lookupA (popKey M "Aerich") p.1).isSome = true := by
    intro p hp
    obtain ⟨k, v⟩ := p
    exact lookupA_isSome_of_mem _ _ _ hp
  refine ⟨st1, ?_, h2⟩
  simp only [diff_models, h1]
  rw [diffModelsOld_skip ddl (popKey M "Aerich") u (popKey M "Aerich") hskip st1]


/-- C1: diffing two identical model sets in both directions (as
`Migrate.migrate` does: upgrade first, then downgrade over the already
popped mappings) emits no operators at all: both ordinary operator lists and
both fk/m2m/index operator lists are empty after the two runs starting from
the initial class state. -/
theorem identical_models_diff_empty (dialect : String) (ddl : DDL) (oracle : Oracle)
    (M : List (String × Model))
    (hM : (M.map Prod.fst).Nodup)
    (hF : ∀ p ∈ M, ((p.2.fields_map).map Prod.fst).Nodup) :
    ∃ st1 st2,
      (diff_models dialect ddl oracle M M true initState).2.2 = .ok st1 ∧
      (diff_models dialect ddl oracle
          (diff_models dialect ddl oracle M M true initState).2.1
          (diff_models dialect ddl oracle M M true initState).1 false st1).2.2 =
        .ok st2 ∧
      st1.upgrade_operators = [] ∧ st1.downgrade_operators = [] ∧
      st1.upgrade_fk_m2m_index_operators = [] ∧
      st1.downgrade_fk_m2m_index_operators = [] ∧
      st2.upgrade_operators = [] ∧ st2.downgrade_operators = [] ∧
      st2.upgrade_fk_m2m_index_operators = [] ∧
      st2.downgrade_fk_m2m_index_operators = [] := by
  obtain ⟨st1, h1, p1⟩ := diff_models_identical dialect ddl oracle M true initState hM hF
  have hsub : (popKey M "Aerich").Sublist M := popKey_sublist M "Aerich"
  have hEn : ((popKey M "Aerich").map Prod.fst).Nodup := hM.sublist (hsub.map Prod.fst)
  have hFE : ∀ p ∈ popKey M "Aerich", ((p.2.fields_map).map Prod.fst).Nodup :=
    fun p hp => hF p (hsub.subset hp)
  obtain ⟨st2, h2, p2⟩ := diff_models_identical dialect ddl oracle
    (popKey M "Aerich") false st1 hEn hFE
  have e1 : (diff_models dialect ddl oracle M M true initState).2.1 =
      popKey M "Aerich" := rfl
  have e2 : (diff_models dialect ddl oracle M M true initState).1 =
      popKey M "Aerich" := rfl
  rw [e1, e2]
  obtain ⟨a1, b1, c1, d1, _⟩ := p1
  obtain ⟨a2, b2, c2, d2, _⟩ := p2
  refine ⟨st1, st2, h1, h2, ?_, ?_, ?_, ?_, ?_, ?_, ?_, ?_⟩ <;>
    simp_all [initState]

/-- Witness for the identical-model-set property at a concrete two-table
model set (with an m2m field, composite indexes and unique_together). -/
theorem identical_models_diff_empty_witness :
    ∃ st1 st2,
      (diff_models "mysql" specDDL yesOracle c1models c1models true initState).2.2 =
        .ok st1 ∧
      (diff_models "mysql" specDDL yesOracle
          (diff_models "mysql" specDDL yesOracle c1models c1models true initState).2.1
          (diff_models "mysql" specDDL yesOracle c1models c1models true initState).1
          false st1).2.2 = .ok st2 ∧
      st1.upgrade_operators = [] ∧ st1.downgrade_operators = [] ∧
      st1.upgrade_fk_m2m_index_operators = [] ∧
      st1.downgrade_fk_m2m_index_operators = [] ∧
      st2.upgrade_operators = [] ∧ st2.downgrade_operators = [] ∧
      st2.upgrade_fk_m2m_index_operators = [] ∧
      st2.downgrade_fk_m2m_index_operators = [] :=
  identical_models_diff_empty "mysql" specDDL yesOracle c1models
    (by decide) (by decide)


theorem diff_model_singleton_indexCompare (dialect : String) (ddl : DDL)
    (oracle : Oracle) (tab : String) (f g : Field)
    (hst : g.structuralDescribe = f.structuralDescribe)
    (hrole : f.role = .plain) :
    ∃ st, diff_model dialect ddl oracle ⟨tab, [(f.name, f)], [], [], []⟩
        ⟨tab, [(g.name, g)], [], [], []⟩ true initState = .ok st ∧
      st.upgrade_operators =
        (if (f.index && !g.index) || (f.unique && !g.unique) then
          [ddl.drop_index ⟨tab, [(f.name, f)], [], [], []⟩ [f.name] f.unique]
        else if (g.index && !f.index) || (g.unique && !f.unique) then
          [ddl.add_index ⟨tab, [(g.name, g)], [], [], []⟩ [g.name] g.unique]
        else []) ∧
      st.upgrade_fk_m2m_index_operators = [] ∧
      st.downgrade_operators = [] ∧
      st.downgrade_fk_m2m_index_operators = [] ∧
      st.column_reflex = [] := by
  have hgf : g.role = f.role := by
    simpa [Field.structuralDescribe] using congrArg FieldStructural.role hst
  have hgrole : g.role = .plain := hgf.trans hrole
  have hname : g.name = f.name := by
    simpa [Field.structuralDescribe] using congrArg FieldStructural.name hst
  by_cases hc1 : ((f.index && !g.index) || (f.unique && !g.unique)) = true
  · refine ⟨⟨[ddl.drop_index ⟨tab, [(f.name, f)], [], [], []⟩ [f.name] f.unique],
      [], [], [], [], [], []⟩, ?_, ?_, rfl, rfl, rfl, rfl⟩
    · simp [diff_model, diffNewFields, diffOldFields, diffCommonField, _exclude_field,
        hgrole, hrole, lookupA, hname, hst, hc1, _is_fk_m2m, _add_operator,
        _remove_index, _resolve_fk_fields_name, addRemaining, diffIndexes,
        diffUniqueTogether, initState]
    · simp [hc1]
  · by_cases hc2 : ((g.index && !f.index) || (g.unique && !f.unique)) = true
    · refine ⟨⟨[ddl.add_index ⟨tab, [(g.name, g)], [], [], []⟩ [g.name] g.unique],
        [], [], [], [], [], []⟩, ?_, ?_, rfl, rfl, rfl, rfl⟩
      · simp [diff_model, diffNewFields, diffOldFields, diffCommonField, _exclude_field,
          hgrole, hrole, lookupA, hname, hst, hc1, hc2, _is_fk_m2m, _add_operator,
          _add_index, _resolve_fk_fields_name, addRemaining, diffIndexes,
          diffUniqueTogether, initState]
      · simp [hc1, hc2]
    · refine ⟨initState, ?_, ?_, rfl, rfl, rfl, rfl⟩
      · simp [diff_model, diffNewFields, diffOldFields, diffCommonField, _exclude_field,
          hgrole, hrole, lookupA, hname, hst, hc1, hc2, _is_fk_m2m,
          addRemaining, diffIndexes, diffUniqueTogether, initState]
      · simp [hc1, hc2, initState]


/-- C3: when a field is unchanged except that its unique flag goes from
false to true, one upgrade diff pass emits exactly one AddIndex operator
with the unique flag set and nothing else — in particular zero ModifyColumn
operators (the operator list contains only the add_index rendering). -/
theorem unique_flag_gain_add_index (dialect : String) (ddl : DDL) (oracle : Oracle)
    (tab : String) (f : Field) (hu : f.unique = false) (hrole : f.role = .plain) :
    ∃ st, diff_model dialect ddl oracle ⟨tab, [(f.name, f)], [], [], []⟩
        ⟨tab, [(f.name, {f with unique := true})], [], [], []⟩ true initState =
          .ok st ∧
      st.upgrade_operators =
        [ddl.add_index ⟨tab, [(f.name, {f with unique := true})], [], [], []⟩
          [f.name] true] ∧
      st.upgrade_fk_m2m_index_operators = [] ∧
      st.downgrade_operators = [] ∧
      st.downgrade_fk_m2m_index_operators = [] := by
  obtain ⟨st, h1, h2, h3, h4, h5, _⟩ := diff_model_singleton_indexCompare dialect ddl
    oracle tab f {f with unique := true} rfl hrole
  refine ⟨st, h1, ?_, h3, h4, h5⟩
  simpa [hu] using h2

/-- Witness for the unique-flag-gain property at the concrete field pair
from the spec example (`User.name` gaining `unique=true`). -/
theorem unique_flag_gain_add_index_witness :
    ∃ st, diff_model "mysql" specDDL yesOracle
        ⟨"user", [("name", charField "name" false false)], [], [], []⟩
        ⟨"user", [("name", {charField "name" false false with unique := true})],
          [], [], []⟩ true initState = .ok st ∧
      st.upgrade_operators =
        [specDDL.add_index
          ⟨"user", [("name", {charField "name" false false with unique := true})],
            [], [], []⟩ ["name"] true] ∧
      st.upgrade_fk_m2m_index_operators = [] ∧
      st.downgrade_operators = [] ∧
      st.downgrade_fk_m2m_index_operators = [] :=
  unique_flag_gain_add_index "mysql" specDDL yesOracle "user"
    (charField "name" false false) rfl rfl

/-- C4 amended: for a field present in both models the unique/indexed flags
are compared independently of the structural comparison, but through an
if/elif pair: when the old field had index or unique and the new one lacks
it, exactly one DropIndex is emitted; otherwise, when the new field has
index or unique and the old one lacks it, exactly one AddIndex is emitted.
A field that loses one of the two constraints and gains the other in the
same pass therefore yields only the DropIndex, never both operators. -/
theorem field_index_unique_compare (dialect : String) (ddl : DDL) (oracle : Oracle)
    (tab : String) (f g : Field)
    (hst : g.structuralDescribe = f.structuralDescribe)
    (hrole : f.role = .plain) :
    ∃ st, diff_model dialect ddl oracle ⟨tab, [(f.name, f)], [], [], []⟩
        ⟨tab, [(g.name, g)], [], [], []⟩ true initState = .ok st ∧
      st.upgrade_operators =
        (if (f.index && !g.index) || (f.unique && !g.unique) then
          [ddl.drop_index ⟨tab, [(f.name, f)], [], [], []⟩ [f.name] f.unique]
        else if (g.index && !f.index) || (g.unique && !f.unique) then
          [ddl.add_index ⟨tab, [(g.name, g)], [], [], []⟩ [g.name] g.unique]
        else []) ∧
      st.upgrade_fk_m2m_index_operators = [] ∧
      st.downgrade_operators = [] ∧
      st.downgrade_fk_m2m_index_operators = [] ∧
      st.column_reflex = [] :=
  diff_model_singleton_indexCompare dialect ddl oracle tab f g hst hrole

/-- Witness for the if/elif index comparison at a concrete field pair
(`tag` loses its plain index and gains a unique constraint): only the
DropIndex branch fires. -/
theorem field_index_unique_compare_witness :
    ∃ st, diff_model "mysql" specDDL yesOracle
        ⟨"user", [("tag", charField "tag" false true)], [], [], []⟩
        ⟨"user", [("tag", charField "tag" true false)], [], [], []⟩ true initState =
          .ok st ∧
      st.upgrade_operators =
        [specDDL.drop_index ⟨"user", [("tag", charField "tag" false true)], [], [], []⟩
          ["tag"] false] ∧
      st.upgrade_fk_m2m_index_operators = [] ∧
      st.downgrade_operators = [] ∧
      st.downgrade_fk_m2m_index_operators = [] ∧
      st.column_reflex = [] :=
  field_index_unique_compare "mysql" specDDL yesOracle "user"
    (charField "tag" false true) (charField "tag" true false) rfl rfl

/-- C4 as stated is refuted: for the field `tag` that simultaneously loses
its index and gains a unique constraint, the pass emits only the DropIndex
operator; the AddIndex operator required by the claim for the gained unique
constraint is absent from every operator list of the run. -/
theorem index_unique_swap_counterexample :
    diff_model "mysql" specDDL yesOracle c4old c4new true initState =
      .ok ⟨["ALTER TABLE user DROP INDEX (tag)"], [], [], [], [], [], []⟩ ∧
    specDDL.add_index c4new ["tag"] true = "ALTER TABLE user ADD UNIQUE INDEX (tag)" ∧
    "ALTER TABLE user ADD UNIQUE INDEX (tag)" ∉
      (["ALTER TABLE user DROP INDEX (tag)"] : List String) :=
  ⟨rfl, rfl, by decide⟩


/-- C5 amended: a model pair whose only difference is a composite unique
tuple present only in the new model yields exactly one AddIndex operator
with the unique flag, but that operator is appended to the ORDINARY upgrade
operator list (`_add_operator` is called with its `fk` argument left at the
default False), the fk/m2m/index operator list stays empty, and
`_merge_operators` therefore leaves the merged list unchanged instead of
moving the operator after the ordinary operators. -/
theorem composite_unique_add_index_ordinary (dialect : String) (ddl : DDL)
    (oracle : Oracle) (om nm : Model) (t : List String)
    (hf : nm.fields_map = om.fields_map)
    (hn : (om.fields_map.map Prod.fst).Nodup)
    (hidx : nm.indexes = om.indexes)
    (hut : nm.unique_together = om.unique_together ++ [t])
    (ht : t ∉ om.unique_together) :
    ∃ st, diff_model dialect ddl oracle om nm true initState = .ok st ∧
      st.upgrade_operators = [ddl.add_index nm (_resolve_fk_fields_name nm t) true] ∧
      st.upgrade_fk_m2m_index_operators = [] ∧
      st.downgrade_operators = [] ∧
      st.downgrade_fk_m2m_index_operators = [] ∧
      (_merge_operators st).upgrade_operators =
        [ddl.add_index nm (_resolve_fk_fields_name nm t) true] := by
  obtain ⟨stm, h1, p⟩ := diff_model_common dialect ddl oracle om nm true initState
    hf hn hidx
  obtain ⟨a, b, c, d, e⟩ := p
  have hcf : om.unique_together.contains t = false := by simpa using ht
  have hmem2 : ∀ x ∈ om.unique_together,
      (om.unique_together ++ [t]).contains x = true :=
    fun x hx => mem_contains _ _ (List.mem_append_left _ hx)
  have hd : diffUniqueTogether ddl om nm true stm =
      _add_operator (_add_index ddl nm t true) true false stm := by
    unfold diffUniqueTogether
    rw [hut, List.foldl_append,
      foldl_contains_skip om.unique_together om.unique_together _
        (fun x hx => mem_contains _ _ hx)]
    simp only [List.foldl_cons, List.foldl_nil, hcf, Bool.false_eq_true, if_false]
    rw [foldl_contains_skip om.unique_together (om.unique_together ++ [t]) _ hmem2]
  refine ⟨_, by rw [h1, hd], ?_, ?_, ?_, ?_, ?_⟩ <;>
    simp [_add_operator, _add_index, _merge_operators, mergeRefs, a, b, c, d, initState]

/-- Witness for the composite-unique AddIndex behaviour at the concrete
model pair where table `a` gains the unique tuple `(x, y)`. -/
theorem composite_unique_add_index_ordinary_witness :
    ∃ st, diff_model "mysql" specDDL yesOracle c5oldA c5newA true initState =
        .ok st ∧
      st.upgrade_operators =
        [specDDL.add_index c5newA (_resolve_fk_fields_name c5newA ["x", "y"]) true] ∧
      st.upgrade_fk_m2m_index_operators = [] ∧
      st.downgrade_operators = [] ∧
      st.downgrade_fk_m2m_index_operators = [] ∧
      (_merge_operators st).upgrade_operators =
        [specDDL.add_index c5newA (_resolve_fk_fields_name c5newA ["x", "y"]) true] :=
  composite_unique_add_index_ordinary "mysql" specDDL yesOracle c5oldA c5newA
    ["x", "y"] rfl (by decide) rfl rfl (by decide)

/-- C5 as stated is refuted: in the concrete run where table `a` gains the
composite unique index `(x, y)` and table `b` gains an ordinary column, the
fk/m2m/index operator list of the sequencer stays empty (the AddIndex is not
classified REFERENTIAL), and in the final merged list the AddIndex comes
BEFORE the ordinary AddColumn operator discovered later, not strictly after
all ordinary operators. -/
theorem composite_unique_not_referential_counterexample :
    ∃ st,
      (diff_models "mysql" specDDL yesOracle c5oldModels c5newModels true
        initState).2.2 = .ok st ∧
      st.upgrade_fk_m2m_index_operators = [] ∧
      st.upgrade_operators =
        ["ALTER TABLE a ADD UNIQUE INDEX (x, y)", "ALTER TABLE b ADD COLUMN q"] ∧
      (_merge_operators st).upgrade_operators =
        ["ALTER TABLE a ADD UNIQUE INDEX (x, y)", "ALTER TABLE b ADD COLUMN q"] :=
  ⟨_, rfl, rfl, rfl, rfl⟩


theorem diffOldFields_downgrade_oracle_irrel (ddl : DDL) (o1 o2 : Oracle)
    (om nm : Model) (sub : List (String × Field)) :
    ∀ changed st, diffOldFields ddl o1 om nm false sub changed st =
      diffOldFields ddl o2 om nm false sub changed st := by
  induction sub with
  | nil => intro changed st; rfl
  | cons p rest ih =>
    intro changed st
    obtain ⟨k, f⟩ := p
    simp only [diffOldFields]
    by_cases h1 : (lookupA nm.fields_map k).isSome = true
    · rw [if_pos h1, if_pos h1]
      exact ih _ _
    · rw [if_neg h1, if_neg h1]
      by_cases h2 : (_exclude_field f false st).1 = true
      · rw [if_pos h2, if_pos h2]
        exact ih _ _
      · rw [if_neg h2, if_neg h2,
          if_neg (by decide : ¬ (false = true)), if_neg (by decide : ¬ (false = true))]
        cases hr : lookupA (_exclude_field f false st).2.column_reflex f.name with
        | none =>
          simp only [hr]
          exact ih _ _
        | some nn =>
          simp only [hr]
          by_cases h3 : nn ≠ ""
          · rw [if_pos h3, if_pos h3]
            cases hc : lookupA changed nn with
            | none => simp only [hc]
            | some nf =>
              simp only [hc]
              exact ih _ _
          · rw [if_neg h3, if_neg h3]
            exact ih _ _

theorem diff_model_downgrade_oracle_irrel (dialect : String) (ddl : DDL)
    (o1 o2 : Oracle) (om nm : Model) (st : MigrateState) :
    diff_model dialect ddl o1 om nm false st =
      diff_model dialect ddl o2 om nm false st := by
  simp only [diff_model]
  rw [diffOldFields_downgrade_oracle_irrel ddl o1 o2 om nm om.fields_map _ _]


/-- C2: a field rename confirmed by the oracle during the upgrade pass is
recorded in the rename-correlation map, and the downgrade pass over the
symmetric old/new pair emits the mirrored RenameColumn operator by
consulting (and consuming) that map; the downgrade pass never invokes the
oracle — its result is identical under every oracle.  The rename scenario is
formalized over the family of single-field model pairs with arbitrary
descriptors equal up to name and db_column. -/
theorem rename_correlated_downgrade (dialect : String) (ddl : DDL) (oracle : Oracle)
    (tab : String) (f g : Field)
    (hrd : f.renameDescribe = g.renameDescribe)
    (hrole : f.role = .plain)
    (hne : f.name ≠ g.name)
    (hfe : f.name ≠ "")
    (hconf : oracle f.name g.name = true) :
    (∀ o1 o2 : Oracle, ∀ om nm : Model, ∀ st : MigrateState,
        diff_model dialect ddl o1 om nm false st =
          diff_model dialect ddl o2 om nm false st) ∧
    ∃ st1 st2,
      diff_model dialect ddl oracle ⟨tab, [(f.name, f)], [], [], []⟩
          ⟨tab, [(g.name, g)], [], [], []⟩ true initState = .ok st1 ∧
      st1.upgrade_operators =
        [ddl.rename_column ⟨tab, [(g.name, g)], [], [], []⟩ f.name g] ∧
      st1.column_reflex = [(g.name, f.name)] ∧
      diff_model dialect ddl oracle ⟨tab, [(g.name, g)], [], [], []⟩
          ⟨tab, [(f.name, f)], [], [], []⟩ false st1 = .ok st2 ∧
      st2.downgrade_operators =
        [ddl.rename_column ⟨tab, [(f.name, f)], [], [], []⟩ g.name f] ∧
      st2.column_reflex = [] ∧
      st2.upgrade_operators = st1.upgrade_operators := by
  refine ⟨fun o1 o2 om nm st =>
    diff_model_downgrade_oracle_irrel dialect ddl o1 o2 om nm st, ?_⟩
  have hgf : g.role = f.role := by
    simpa [Field.renameDescribe] using (congrArg FieldRenameDescribe.role hrd).symm
  have hgrole : g.role = .plain := hgf.trans hrole
  have hbfg : (f.name == g.name) = false := by simpa using hne
  have hbgf : (g.name == f.name) = false := by simpa using (Ne.symm hne)
  have h1 : diff_model dialect ddl oracle ⟨tab, [(f.name, f)], [], [], []⟩
      ⟨tab, [(g.name, g)], [], [], []⟩ true initState =
      .ok ⟨[ddl.rename_column ⟨tab, [(g.name, g)], [], [], []⟩ f.name g],
        [], [], [], [], [], [(g.name, f.name)]⟩ := by
    simp [diff_model, diffNewFields, diffOldFields, findRenameCandidate,
      _exclude_field, hgrole, hrole, lookupA, hbfg, hbgf, hrd, hconf, _is_fk_m2m,
      _add_operator, popKey, setKey, addRemaining, diffIndexes,
      diffUniqueTogether, initState]
  have h2 : diff_model dialect ddl oracle ⟨tab, [(g.name, g)], [], [], []⟩
      ⟨tab, [(f.name, f)], [], [], []⟩ false
      ⟨[ddl.rename_column ⟨tab, [(g.name, g)], [], [], []⟩ f.name g],
        [], [], [], [], [], [(g.name, f.name)]⟩ =
      .ok ⟨[ddl.rename_column ⟨tab, [(g.name, g)], [], [], []⟩ f.name g],
        [ddl.rename_column ⟨tab, [(f.name, f)], [], [], []⟩ g.name f],
        [], [], [], [], []⟩ := by
    simp [diff_model, diffNewFields, diffOldFields, _exclude_field, hgrole, hrole,
      lookupA, hbfg, hbgf, hfe, _is_fk_m2m, _add_operator, popKey,
      addRemaining, diffIndexes, diffUniqueTogether]
  exact ⟨_, _, h1, rfl, rfl, h2, rfl, rfl, rfl⟩


/-- Witness for the rename-correlation property at the spec's concrete
example: `nick` renamed to `nickname`, oracle confirming. -/
theorem rename_correlated_downgrade_witness :
    ∃ st1 st2,
      diff_model "mysql" specDDL yesOracle
          ⟨"user", [("nick", charField "nick" false false)], [], [], []⟩
          ⟨"user", [("nickname", charField "nickname" false false)], [], [], []⟩
          true initState = .ok st1 ∧
      st1.upgrade_operators =
        [specDDL.rename_column
          ⟨"user", [("nickname", charField "nickname" false false)], [], [], []⟩
          "nick" (charField "nickname" false false)] ∧
      st1.column_reflex = [("nickname", "nick")] ∧
      diff_model "mysql" specDDL yesOracle
          ⟨"user", [("nickname", charField "nickname" false false)], [], [], []⟩
          ⟨"user", [("nick", charField "nick" false false)], [], [], []⟩
          false st1 = .ok st2 ∧
      st2.downgrade_operators =
        [specDDL.rename_column
          ⟨"user", [("nick", charField "nick" false false)], [], [], []⟩
          "nickname" (charField "nick" false false)] ∧
      st2.column_reflex = [] ∧
      st2.upgrade_operators = st1.upgrade_operators :=
  (rename_correlated_downgrade "mysql" specDDL yesOracle "user"
    (charField "nick" false false) (charField "nickname" false false)
    rfl rfl (by decide) (by decide) rfl).2


theorem parseNatChars_append (xs ys : List Char) (a : Nat) :
    parseNatChars (xs ++ ys) a = parseNatChars ys (parseNatChars xs a) := by
  induction xs generalizing a with
  | nil => rfl
  | cons c cs ih => exact ih (a * 10 + (c.toNat - 48))

theorem digit_char_toNat (d : Nat) (h : d < 10) :
    (Char.ofNat (48 + d)).toNat = 48 + d := by
  interval_cases d <;> rfl

theorem digit_char_ne_underscore (d : Nat) (h : d < 10) :
    ((Char.ofNat (48 + d)) != '_') = true := by
  interval_cases d <;> rfl

theorem natDigitsCore_parse (fuel : Nat) :
    ∀ n, n < fuel → parseNatChars (natDigitsCore fuel n) 0 = n := by
  induction fuel with
  | zero => intro n h; omega
  | succ fuel ih =>
    intro n h
    by_cases h10 : n < 10
    · simp only [natDigitsCore]
      rw [if_pos h10]
      simp [parseNatChars, digit_char_toNat n h10]
    · simp only [natDigitsCore]
      rw [if_neg h10]
      rw [parseNatChars_append, ih (n / 10) (by omega)]
      have hm : n % 10 < 10 := Nat.mod_lt _ (by omega)
      simp only [parseNatChars, digit_char_toNat (n % 10) hm]
      omega

theorem natDigitsCore_ne_underscore (fuel : Nat) :
    ∀ n, n < fuel → ∀ c ∈ natDigitsCore fuel n, (c != '_') = true := by
  induction fuel with
  | zero => intro n h; omega
  | succ fuel ih =>
    intro n h c hc
    by_cases h10 : n < 10
    · simp only [natDigitsCore] at hc
      rw [if_pos h10] at hc
      simp only [List.mem_singleton] at hc
      subst hc
      exact digit_char_ne_underscore n h10
    · simp only [natDigitsCore] at hc
      rw [if_neg h10] at hc
      rcases List.mem_append.mp hc with h1 | h1
      · exact ih (n / 10) (by omega) c h1
      · simp only [List.mem_singleton] at h1
        subst h1
        exact digit_char_ne_underscore (n % 10) (Nat.mod_lt _ (by omega))

theorem takeWhile_append_sentinel (p : Char → Bool) (xs : List Char) (y : Char)
    (ys : List Char) (hx : ∀ x ∈ xs, p x = true) (hy : p y = false) :
    (xs ++ y :: ys).takeWhile p = xs := by
  induction xs with
  | nil => simp [List.takeWhile_cons, hy]
  | cons a as ih =>
    simp only [List.cons_append, List.takeWhile_cons,
      hx a (List.mem_cons_self _ _), if_true]
    rw [ih (fun x h => hx x (List.mem_cons_of_mem _ h))]

theorem get_last_version_num_data (s : String) :
    _get_last_version_num (some s) =
      some (parseNatChars (s.data.takeWhile (fun c => c != '_')) 0) := rfl

/-- C8: `generate_version` with no prior version yields sequence 0 and the
label `init` regardless of the requested name (first two conjuncts: the
rendered string, and that its parsed-back sequence number is 0); with a
prior version the generated identifier's sequence component parses back to
the last persisted sequence number plus one, for every label text — so the
sequence numbers of successive versions are strictly increasing. -/
theorem version_sequencing :
    (∀ now name, generate_version none now name =
      .ok ("0_" ++ now ++ "_init.json")) ∧
    (∀ now, _get_last_version_num (some ("0_" ++ now ++ "_init.json")) = some 0) ∧
    (∀ v now name out, generate_version (some v) now name = .ok out →
      _get_last_version_num (some out) = some (parseNat (splitHead v) + 1)) := by
  refine ⟨fun now name => rfl, ?_, ?_⟩
  · intro now
    rw [get_last_version_num_data]
    simp only [String.data_append]
    rfl
  · intro v now name out h
    simp only [generate_version, _get_last_version_num, Option.map_some'] at h
    set m := parseNat (splitHead v) with hm
    by_cases hlen : (natRepr (m + 1) ++ "_" ++ now ++ "_" ++ name ++ ".json").length >
        MAX_VERSION_LENGTH
    · rw [if_pos hlen] at h
      exact absurd h (by simp)
    · rw [if_neg hlen] at h
      have hout : out = natRepr (m + 1) ++ "_" ++ now ++ "_" ++ name ++ ".json" :=
        (Except.ok.injEq _ _ ▸ h :).symm
      subst hout
      rw [get_last_version_num_data]
      have hdata : (natRepr (m + 1) ++ "_" ++ now ++ "_" ++ name ++ ".json").data =
          natDigitsCore (m + 2) (m + 1) ++
            '_' :: (now.data ++ '_' :: (name.data ++ ".json".data)) := by
        simp [natRepr, String.data_append]
      rw [hdata,
        takeWhile_append_sentinel _ _ '_' _
          (fun c hc => natDigitsCore_ne_underscore (m + 2) (m + 1)
            (Nat.lt_succ_self _) c hc) (by decide),
        natDigitsCore_parse (m + 2) (m + 1) (Nat.lt_succ_self _)]

/-- Witness for the version sequencing at a concrete stored version `3_t_x.json`:
the next version is `4_ts_foo.json`, whose sequence parses back to 4. -/
theorem version_sequencing_witness :
    generate_version (some "3_t_x.json") "ts" "foo" = .ok "4_ts_foo.json" ∧
    _get_last_version_num (some "4_ts_foo.json") = some (parseNat (splitHead "3_t_x.json") + 1) ∧
    parseNat (splitHead "3_t_x.json") = 3 :=
  ⟨rfl, version_sequencing.2.2 "3_t_x.json" "ts" "foo" "4_ts_foo.json" rfl, rfl⟩

end Aerich
